import Mathlib

/-!
Verification of the order-matching core of the PyCxs marketplace
(`src/artifacts/marketplace.py`).

The Python code is shallowly embedded: prices are integers extended with
the `±np.inf` sentinels (`XInt`), agents are identity-comparable ids
(`Nat`), agent balances live in an explicit environment `Env`, and the
fallible Python operations (`list.remove`, which raises `ValueError` when
the element is absent) return `Option`, with `none` standing for a raised
exception.
-/

namespace PyCxs

/-- Python numbers as they appear in the order book: integers plus the
`-np.inf` / `np.inf` sentinel values used for the empty-side cached
best-bid/best-offer orders. -/
inductive XInt where
  | ninf : XInt
  | fin (n : Int) : XInt
  | pinf : XInt
deriving DecidableEq

/-- Python `<=` on `XInt` (`-inf <= x`, `x <= inf`, integers as usual). -/
def XInt.le : XInt → XInt → Bool
  | .ninf, _ => true
  | _, .pinf => true
  | .fin a, .fin b => decide (a ≤ b)
  | _, _ => false

/-- Python `<` on `XInt`. -/
def XInt.lt : XInt → XInt → Bool
  | _, .ninf => false
  | .ninf, _ => true
  | .fin a, .fin b => decide (a < b)
  | .fin _, .pinf => true
  | .pinf, _ => false

/-- Python `+` on `XInt`.  Mixed infinities (`inf + -inf`) never arise in
any settlement the engine performs, so their value here is immaterial. -/
def XInt.add : XInt → XInt → XInt
  | .fin a, .fin b => .fin (a + b)
  | .pinf, _ => .pinf
  | _, .pinf => .pinf
  | _, _ => .ninf

/-- Python unary negation on `XInt`. -/
def XInt.neg : XInt → XInt
  | .ninf => .pinf
  | .fin n => .fin (-n)
  | .pinf => .ninf

theorem XInt.le_refl (a : XInt) : XInt.le a a = true := by
  cases a <;> simp [XInt.le]

theorem XInt.le_trans {a b c : XInt} (h₁ : XInt.le a b = true)
    (h₂ : XInt.le b c = true) : XInt.le a c = true := by
  cases a <;> cases b <;> cases c <;> simp_all [XInt.le] <;> omega

theorem XInt.le_total (a b : XInt) : XInt.le a b = true ∨ XInt.le b a = true := by
  cases a <;> cases b <;> simp [XInt.le] <;> omega

theorem XInt.lt_trans {a b c : XInt} (h₁ : XInt.lt a b = true)
    (h₂ : XInt.lt b c = true) : XInt.lt a c = true := by
  cases a <;> cases b <;> cases c <;> simp_all [XInt.lt] <;> omega

theorem XInt.le_iff_lt_or_eq {a b : XInt} :
    XInt.le a b = true ↔ (XInt.lt a b = true ∨ a = b) := by
  cases a <;> cases b <;> simp [XInt.le, XInt.lt] <;> omega

theorem XInt.not_le_iff_lt {a b : XInt} :
    XInt.le a b = false ↔ XInt.lt b a = true := by
  cases a <;> cases b <;> simp [XInt.le, XInt.lt] <;> omega

/-- Agent identities.  `Agent` objects in the Python code are
identity-comparable references; balances live in `Env`, not here.
Id `0` is reserved for the fresh `Agent()` placeholders held by the
sentinel best-bid/best-offer orders. -/
def sentinelAgent : Nat := 0

/-- The `Order` dataclass of marketplace.py: good, price, signed quantity
(positive = buy, negative = sell), owning agent, and the id assigned at
admission (`None` before admission). -/
structure Order where
  good : String
  price : XInt
  quantity : Int
  agent : Nat
  id : Option Nat := none
deriving DecidableEq

/-- The admission-time id of an order, as a `Nat` (all orders resting in
a book carry an assigned id). -/
def ordId (o : Order) : Nat := o.id.getD 0

/-- One row of the `history` DataFrame appended by `OrderBook.execute`. -/
structure TradeRecord where
  transaction_id : Nat
  price : XInt
  quantity : Int
  buyer : Nat
  seller : Nat
deriving DecidableEq

/-- The `MarketPlaceTransaction` event appended to `event_history`. -/
structure MarketPlaceTransaction where
  seller_agent : Nat
  buyer_agent : Nat
  good : String
  quantity : Int
  price : XInt
  step : Nat
deriving DecidableEq

/-- Modelled from the spec: agent balance state.  The `Agent` class
(`src/core`, not under `src/`) exposes `get_amounts(asset) -> quantity`;
we keep all balances in one environment mapping agent id and asset name
to an amount. -/
def Env : Type := Nat → String → XInt

/-- Add `amt` to one agent's balance of one asset. -/
def Env.addTo (env : Env) (who : Nat) (asset : String) (amt : XInt) : Env :=
  fun a g => if a = who ∧ g = asset then XInt.add (env a g) amt else env a g

/-- Modelled from the spec: `Agent.trade(leg_out, leg_in, counterparty)`
(`src/core`, not under `src/`) is the atomic bilateral transfer of the
ledger interface — the calling agent gives `leg_out` and receives
`leg_in`, the counterparty the mirror. -/
def trade (env : Env) (self : Nat) (leg_out leg_in : String × XInt)
    (cp : Nat) : Env :=
  ((((env.addTo self leg_out.1 (XInt.neg leg_out.2)).addTo
      self leg_in.1 leg_in.2).addTo
      cp leg_out.1 leg_out.2).addTo
      cp leg_in.1 (XInt.neg leg_in.2))

/-- Python `list.remove`: delete the first element equal to `a`, or raise
`ValueError` (`none`) when no element is equal. -/
def pyRemove (a : Order) : List Order → Option (List Order)
  | [] => none
  | x :: xs => if x = a then some xs else (pyRemove a xs).map (x :: ·)

/-- One pass of Python's
`for e in lst: if p e: lst.remove(e)`
loop: the iterator index advances every iteration even when the list just
shrank, so the element following a removed one is skipped.  `fuel` bounds
the number of iterations; starting it at the list length is exact. -/
def pyForRemoveAux (p : Order → Bool) : Nat → Nat → List Order → List Order
  | 0, _, l => l
  | fuel + 1, i, l =>
    if h : i < l.length then
      let e := l[i]
      if p e then pyForRemoveAux p fuel (i + 1) (l.erase e)
      else pyForRemoveAux p fuel (i + 1) l
    else l

/-- Python's remove-while-iterating loop over a whole list. -/
def pyForRemove (p : Order → Bool) (l : List Order) : List Order :=
  pyForRemoveAux p l.length 0 l

/-- The predicate `existing_order.agent == order.agent` used by
`should_remove_existing_order`. -/
def ownP (ag : Nat) : Order → Bool := fun e => decide (e.agent = ag)

/-- The `OrderBook` state (marketplace.py lines 57-72): the two sides,
the cached best bid/offer orders, the two counters, the transaction
`history` DataFrame, the per-step best bid/ask series, and the event
log. -/
structure OrderBook where
  product_name : String
  sell_orders : List Order
  buy_orders : List Order
  highest_bid_order : Order
  lowest_offer_order : Order
  order_count : Nat
  num_transactions : Nat
  history : List TradeRecord
  best_bid_history : List XInt
  best_ask_history : List XInt
  event_history : List MarketPlaceTransaction
deriving DecidableEq

/-- The sentinel best-bid placeholder `Order(product, -np.inf, 1, Agent())`. -/
def sentinelBid (product : String) : Order :=
  { good := product, price := .ninf, quantity := 1, agent := sentinelAgent }

/-- The sentinel best-offer placeholder `Order(product, np.inf, -1, Agent())`. -/
def sentinelOffer (product : String) : Order :=
  { good := product, price := .pinf, quantity := -1, agent := sentinelAgent }

/-- Embedding of `OrderBook.__init__`. -/
def OrderBook.init (product_name : String) : OrderBook :=
  { product_name := product_name
    sell_orders := []
    buy_orders := []
    highest_bid_order := sentinelBid product_name
    lowest_offer_order := sentinelOffer product_name
    order_count := 0
    num_transactions := 0
    history := []
    best_bid_history := []
    best_ask_history := []
    event_history := [] }

/-- Embedding of `OrderBook.reset` (lines 74-87): clears the sides, the cached
best-bid/best-offer, the counters and the `history` DataFrame.  It does
not touch `best_bid_history`, `best_ask_history` or `event_history`. -/
def OrderBook.reset (book : OrderBook) : OrderBook :=
  { book with
    sell_orders := []
    buy_orders := []
    highest_bid_order := sentinelBid book.product_name
    lowest_offer_order := sentinelOffer book.product_name
    order_count := 0
    num_transactions := 0
    history := [] }

/-- Embedding of `OrderBook.is_order_legitimate` (lines 103-111). -/
def OrderBook.is_order_legitimate (book : OrderBook) (env : Env)
    (order : Order) (is_buy_order : Bool) : Bool :=
  if order.quantity = 0 then false
  else if is_buy_order && XInt.le order.price (env order.agent "capital") then true
  else if !is_buy_order &&
      XInt.le (XInt.fin |order.quantity|) (env order.agent book.product_name) then true
  else false

/-- Embedding of `OrderBook.should_remove_existing_order` (lines 113-119): the two
remove-while-iterating loops over the sell then the buy side. -/
def OrderBook.should_remove_existing_order (book : OrderBook)
    (order : Order) : OrderBook :=
  { book with
    sell_orders := pyForRemove (ownP order.agent) book.sell_orders
    buy_orders := pyForRemove (ownP order.agent) book.buy_orders }

/-- Embedding of `OrderBook.execute` (lines 150-203).  `none` models the `ValueError`
raised by `list.remove` when `book_order` is not in the side it is
removed from. -/
def OrderBook.execute (book : OrderBook) (env : Env)
    (incoming_order book_order : Order) : Option (OrderBook × Env) :=
  let transaction_price := book_order.price
  let is_incoming_buy_order : Bool := decide (0 ≤ incoming_order.quantity)
  let transaction_quantity : Int :=
    min |incoming_order.quantity| |book_order.quantity|
  if is_incoming_buy_order then
    let env' := trade env incoming_order.agent
      ("capital", transaction_price)
      (book.product_name, XInt.fin transaction_quantity) book_order.agent
    match pyRemove book_order book.sell_orders with
    | none => none
    | some sells =>
      some ({ book with
        sell_orders := sells
        event_history := book.event_history ++
          [{ seller_agent := book_order.agent
             buyer_agent := incoming_order.agent
             good := book.product_name
             quantity := transaction_quantity
             price := transaction_price
             step := 0 }]
        history := book.history ++
          [{ transaction_id := book.num_transactions
             price := transaction_price
             quantity := transaction_quantity
             buyer := incoming_order.agent
             seller := book_order.agent }]
        num_transactions := book.num_transactions + 1 }, env')
  else
    let env' := trade env incoming_order.agent
      (book.product_name, XInt.fin transaction_quantity)
      ("capital", transaction_price) book_order.agent
    match pyRemove book_order book.buy_orders with
    | none => none
    | some buys =>
      some ({ book with
        buy_orders := buys
        event_history := book.event_history ++
          [{ seller_agent := incoming_order.agent
             buyer_agent := book_order.agent
             good := book.product_name
             quantity := transaction_quantity
             price := transaction_price
             step := 0 }]
        history := book.history ++
          [{ transaction_id := book.num_transactions
             price := transaction_price
             quantity := transaction_quantity
             buyer := book_order.agent
             seller := incoming_order.agent }]
        num_transactions := book.num_transactions + 1 }, env')

/-- Embedding of `OrderBook._can_order_be_executed` (lines 89-101): `false` when the
opposite side is empty or the price does not cross the cached best
opposite order; otherwise delegates to `execute` against that cached
order (which always returns `True` when it does not raise). -/
def OrderBook.can_order_be_executed (book : OrderBook) (env : Env)
    (order : Order) (is_buy_order : Bool) : Option (Bool × OrderBook × Env) :=
  if (is_buy_order && book.sell_orders.isEmpty) ||
      (!is_buy_order && book.buy_orders.isEmpty) then
    some (false, book, env)
  else if is_buy_order && XInt.le book.lowest_offer_order.price order.price then
    (book.execute env order book.lowest_offer_order).map (fun r => (true, r))
  else if !is_buy_order && XInt.le order.price book.highest_bid_order.price then
    (book.execute env order book.highest_bid_order).map (fun r => (true, r))
  else
    some (false, book, env)

/-- The sort relation of `sorted(buy_orders, key=price, reverse=True)`:
descending price. -/
def rBuy (a b : Order) : Prop := XInt.le b.price a.price = true

/-- The sort relation of `sorted(sell_orders, key=price)`: ascending
price. -/
def rSell (a b : Order) : Prop := XInt.le a.price b.price = true

instance : DecidableRel rBuy := fun a b => by unfold rBuy; infer_instance

instance : DecidableRel rSell := fun a b => by unfold rSell; infer_instance

/-- Python's `sorted` is a stable sort; on the buy side it sorts by
descending price with ties kept in their current order, which is exactly
`List.insertionSort` with `rBuy`. -/
def sortBuy (l : List Order) : List Order := l.insertionSort rBuy

/-- Python's `sorted` on the sell side: stable, ascending price. -/
def sortSell (l : List Order) : List Order := l.insertionSort rSell

/-- Lines 142-148 of `OrderBook.add`: re-sort each non-empty side and
point the cached best-bid/best-offer at its new head; an empty side is
left untouched (its cached order is not refreshed). -/
def refreshCaches (book : OrderBook) : OrderBook :=
  let book₁ :=
    match sortBuy book.buy_orders with
    | [] => book
    | b :: bs => { book with buy_orders := b :: bs, highest_bid_order := b }
  match sortSell book₁.sell_orders with
  | [] => book₁
  | s :: ss => { book₁ with sell_orders := s :: ss, lowest_offer_order := s }

/-- Embedding of `OrderBook.add` (lines 121-148): stamp the next id, classify the
side by the sign of the quantity, evaluate legitimacy, unconditionally
cancel the agent's resting orders, then match-or-rest and refresh the
caches when legitimate.  `none` models an escaped `ValueError`. -/
def OrderBook.add (book : OrderBook) (env : Env) (order : Order) :
    Option (OrderBook × Env) :=
  let order := { order with id := some book.order_count }
  let book := { book with order_count := book.order_count + 1 }
  let is_buy_order : Bool := decide (0 ≤ order.quantity)
  let order_is_legitimate := book.is_order_legitimate env order is_buy_order
  let book := book.should_remove_existing_order order
  if order_is_legitimate then
    match book.can_order_be_executed env order is_buy_order with
    | none => none
    | some (order_was_executed, book, env) =>
      let book :=
        if !order_was_executed then
          if is_buy_order then { book with buy_orders := book.buy_orders ++ [order] }
          else { book with sell_orders := book.sell_orders ++ [order] }
        else book
      some (refreshCaches book, env)
  else some (book, env)

/-- Embedding of `OrderBook.step` (lines 205-211). -/
def OrderBook.step (book : OrderBook) : OrderBook :=
  { book with
    best_bid_history := book.best_bid_history ++ [book.highest_bid_order.price]
    best_ask_history := book.best_ask_history ++ [book.lowest_offer_order.price] }

/-- Embedding of `OrderBook.get_full_orderbook` (lines 213-214). -/
def OrderBook.get_full_orderbook (book : OrderBook) : List (XInt × Int) :=
  book.buy_orders.map (fun o => (o.price, o.quantity)) ++
    book.sell_orders.map (fun o => (o.price, o.quantity))

/-! ### The remove-while-iterating loop -/

theorem pyForRemoveAux_sublist (p : Order → Bool) :
    ∀ (fuel i : Nat) (l : List Order), List.Sublist (pyForRemoveAux p fuel i l) l := by
  intro fuel
  induction fuel with
  | zero => intro i l; exact List.Sublist.refl l
  | succ n ih =>
    intro i l
    simp only [pyForRemoveAux]
    split
    · split
      · exact (ih _ _).trans (List.erase_sublist _ _)
      · exact ih _ _
    · exact List.Sublist.refl l

theorem pyForRemoveAux_of_no_match (p : Order → Bool) :
    ∀ (fuel i : Nat) (l : List Order), (∀ e ∈ l, p e = false) →
      pyForRemoveAux p fuel i l = l := by
  intro fuel
  induction fuel with
  | zero => intro i l _; rfl
  | succ n ih =>
    intro i l hl
    simp only [pyForRemoveAux]
    split
    · next h =>
      rw [if_neg (by simp [hl l[i] (l.getElem_mem h)]), ih _ _ hl]
    · rfl

theorem pyForRemove_sublist (p : Order → Bool) (l : List Order) :
    List.Sublist (pyForRemove p l) l :=
  pyForRemoveAux_sublist p l.length 0 l

theorem erase_at_index {l : List Order} {i : Nat} {e : Order}
    (h : i < l.length) (he : l[i] = e) (hnot : e ∉ l.take i) :
    l.erase e = l.take i ++ l.drop (i + 1) := by
  have h1 : l = l.take i ++ e :: l.drop (i + 1) := by
    conv_lhs => rw [← List.take_append_drop i l, List.drop_eq_getElem_cons h, he]
  calc l.erase e = (l.take i ++ e :: l.drop (i + 1)).erase e := by rw [← h1]
    _ = l.take i ++ (e :: l.drop (i + 1)).erase e := List.erase_append_right _ hnot
    _ = l.take i ++ l.drop (i + 1) := by rw [List.erase_cons_head]

theorem pyForRemoveAux_eq_filter (p : Order → Bool) :
    ∀ (fuel i : Nat) (l : List Order), l.length ≤ fuel + i →
      l.countP p ≤ 1 → (l.take i).countP p = 0 →
      pyForRemoveAux p fuel i l = l.filter (fun e => !p e) := by
  intro fuel
  induction fuel with
  | zero =>
    intro i l hlen _ hpre
    rw [List.take_of_length_le (by omega)] at hpre
    have : ∀ e ∈ l, (!p e) = true := by
      intro e he
      simpa using List.countP_eq_zero.mp hpre e he
    simp only [pyForRemoveAux]
    exact (List.filter_eq_self.mpr this).symm
  | succ n ih =>
    intro i l hlen hcnt hpre
    simp only [pyForRemoveAux]
    split
    · next h =>
      by_cases hp : p l[i] = true
      · rw [if_pos hp]
        have hnotpre : l[i] ∉ l.take i := fun hmem =>
          (List.countP_eq_zero.mp hpre _ hmem) hp
        have herase : l.erase l[i] = l.take i ++ l.drop (i + 1) :=
          erase_at_index h rfl hnotpre
        have hsplitcnt : l.countP p =
            (l.take i).countP p + ((l.drop (i + 1)).countP p + 1) := by
          conv_lhs => rw [← List.take_append_drop i l, List.drop_eq_getElem_cons h]
          rw [List.countP_append, List.countP_cons_of_pos _ _ hp]
        have hdrop0 : (l.drop (i + 1)).countP p = 0 := by omega
        have hzero : (l.take i ++ l.drop (i + 1)).countP p = 0 := by
          rw [List.countP_append]; omega
        rw [herase, pyForRemoveAux_of_no_match p _ _ _ (by
          intro e he
          simpa using List.countP_eq_zero.mp hzero e he)]
        have hfil : ∀ m : List Order, m.countP p = 0 →
            m.filter (fun e => !p e) = m := by
          intro m hm
          exact List.filter_eq_self.mpr (by
            intro e he; simpa using List.countP_eq_zero.mp hm e he)
        conv_rhs => rw [← List.take_append_drop i l, List.drop_eq_getElem_cons h]
        rw [List.filter_append, List.filter_cons_of_neg (by simp [hp]),
          hfil _ hpre, hfil _ hdrop0]
      · rw [if_neg hp]
        apply ih (i + 1) l (by omega) hcnt
        rw [List.take_succ, List.getElem?_eq_getElem h, List.countP_append]
        simp only [hpre]
        simp [List.countP_cons, hp]
    · next h =>
      rw [List.take_of_length_le (by omega)] at hpre
      exact (List.filter_eq_self.mpr (by
        intro e he
        simpa using List.countP_eq_zero.mp hpre e he)).symm

theorem pyForRemove_eq_filter (p : Order → Bool) (l : List Order)
    (h : l.countP p ≤ 1) : pyForRemove p l = l.filter (fun e => !p e) :=
  pyForRemoveAux_eq_filter p l.length 0 l (by omega) h (by simp)

/-! ### Python `list.remove` -/

theorem pyRemove_eq (a : Order) :
    ∀ l : List Order, pyRemove a l = if a ∈ l then some (l.erase a) else none := by
  intro l
  induction l with
  | nil => simp [pyRemove]
  | cons x xs ih =>
    simp only [pyRemove]
    by_cases hx : x = a
    · subst hx
      simp
    · rw [if_neg hx, ih]
      by_cases hm : a ∈ xs
      · rw [if_pos hm, if_pos (List.mem_cons.mpr (Or.inr hm)),
          List.erase_cons_tail (by simpa using hx)]
        rfl
      · rw [if_neg hm, if_neg (by
          intro hc
          rcases List.mem_cons.mp hc with hc | hc
          · exact hx hc.symm
          · exact hm hc)]
        rfl

theorem pyRemove_cons_self (a : Order) (l : List Order) :
    pyRemove a (a :: l) = some l := by
  rw [pyRemove_eq, if_pos (List.mem_cons_self a l), List.erase_cons_head]

/-! ### Stability of the Python sort -/

section StableSort

variable {le : Order → Order → Prop} [DecidableRel le]

theorem orderedInsert_of_forall {x : Order} {l : List Order}
    (h : ∀ b ∈ l, le x b) : l.orderedInsert le x = x :: l := by
  cases l with
  | nil => rfl
  | cons y ys => exact List.orderedInsert_of_le le ys (h y (List.mem_cons_self y ys))

theorem insertionSort_append_singleton
    (htr : ∀ a b c, le a b → le b c → le a c) (a : Order) :
    ∀ l : List Order, l.Pairwise le →
      (l ++ [a]).insertionSort le =
        l.takeWhile (fun b => decide (le b a)) ++
          a :: l.dropWhile (fun b => decide (le b a)) := by
  intro l
  induction l with
  | nil => simp
  | cons x xs ih =>
    intro hp
    have hxall : ∀ b ∈ xs, le x b := fun b hb => List.rel_of_pairwise_cons hp hb
    rw [List.cons_append, List.insertionSort, ih hp.of_cons]
    by_cases hxa : le x a
    · rw [List.takeWhile_cons_of_pos (by simpa using hxa),
        List.dropWhile_cons_of_pos (by simpa using hxa)]
      cases htw : xs.takeWhile (fun b => decide (le b a)) with
      | nil =>
        simp only [List.nil_append, List.cons_append]
        exact List.orderedInsert_of_le le _ hxa
      | cons y tws =>
        have hy : y ∈ xs := (List.takeWhile_sublist _).subset (htw ▸ List.mem_cons_self y tws)
        rw [List.cons_append, List.cons_append,
          List.orderedInsert_of_le le _ (hxall y hy)]
        simp
    · have hall : ∀ b ∈ xs, ¬ le b a := fun b hb hba => hxa (htr _ _ _ (hxall b hb) hba)
      have htw : xs.takeWhile (fun b => decide (le b a)) = [] := by
        cases xs with
        | nil => rfl
        | cons z zs =>
          exact List.takeWhile_cons_of_neg (by simpa using hall z (List.mem_cons_self z zs))
      have hdw : xs.dropWhile (fun b => decide (le b a)) = xs := by
        cases xs with
        | nil => rfl
        | cons z zs =>
          exact List.dropWhile_cons_of_neg (by simpa using hall z (List.mem_cons_self z zs))
      rw [htw, hdw, List.takeWhile_cons_of_neg (by simpa using hxa),
        List.dropWhile_cons_of_neg (by simpa using hxa), List.nil_append,
        List.nil_append, List.orderedInsert]
      rw [if_neg hxa, orderedInsert_of_forall hxall]

theorem dropWhile_head_false {p : Order → Bool} :
    ∀ {l : List Order} {h : Order} {t : List Order},
      l.dropWhile p = h :: t → p h = false := by
  intro l
  induction l with
  | nil => intro h t hdw; cases hdw
  | cons x xs ih =>
    intro h t hdw
    by_cases hx : p x = true
    · rw [List.dropWhile_cons_of_pos hx] at hdw
      exact ih hdw
    · rw [List.dropWhile_cons_of_neg hx] at hdw
      cases hdw
      simpa using hx

theorem pairwise_insertionSort_append
    {slex : Order → Order → Prop}
    (hletr : ∀ a b c, le a b → le b c → le a c)
    (hslextr : ∀ a b c, slex a b → slex b c → slex a c)
    (hweak : ∀ a b, slex a b → le a b)
    (hstrict : ∀ a b, ¬ le a b → slex b a)
    (htie : ∀ a b, le a b → le b a → ordId a < ordId b → slex a b)
    (a : Order) (l : List Order) (hl : l.Pairwise slex)
    (hfresh : ∀ b ∈ l, ordId b < ordId a) :
    ((l ++ [a]).insertionSort le).Pairwise slex := by
  have hple : l.Pairwise le := hl.imp (hweak _ _)
  rw [insertionSort_append_singleton hletr a l hple]
  have hsplit : l.takeWhile (fun b => decide (le b a)) ++
      l.dropWhile (fun b => decide (le b a)) = l :=
    List.takeWhile_append_dropWhile _ _
  have hl' : (l.takeWhile (fun b => decide (le b a)) ++
      l.dropWhile (fun b => decide (le b a))).Pairwise slex := by
    rw [hsplit]; exact hl
  rw [List.pairwise_append] at hl'
  obtain ⟨htwp, hdwp, hcross⟩ := hl'
  rw [List.pairwise_append]
  refine ⟨htwp, ?_, ?_⟩
  · rw [List.pairwise_cons]
    refine ⟨?_, hdwp⟩
    intro y hy
    rcases hdw : l.dropWhile (fun b => decide (le b a)) with _ | ⟨h, t⟩
    · rw [hdw] at hy; cases hy
    · have hhead : ¬ le h a := by
        have := dropWhile_head_false hdw
        simpa using this
      have hah : slex a h := hstrict _ _ hhead
      rw [hdw] at hy
      rcases List.mem_cons.mp hy with hya | hy'
      · rw [hya]; exact hah
      · have hpw : (h :: t).Pairwise slex := hdw ▸ hdwp
        exact hslextr _ _ _ hah (List.rel_of_pairwise_cons hpw hy')
  · intro x hx y hy
    rcases List.mem_cons.mp hy with hya | hy'
    · rw [hya]
      have hxa : le x a := by simpa using List.mem_takeWhile_imp hx
      by_cases hax : le a x
      · exact htie _ _ hxa hax (hfresh x ((List.takeWhile_sublist _).subset hx))
      · exact hstrict _ _ hax
    · exact hcross x hx y hy'

end StableSort

/-! ### The side orderings maintained by the book -/

/-- Buy-side well-ordering: strictly descending price, equal prices in
admission (id) order — exactly the order a stable descending sort keeps. -/
def slexBuy (a b : Order) : Prop :=
  XInt.lt b.price a.price = true ∨ (a.price = b.price ∧ ordId a < ordId b)

/-- Sell-side well-ordering: strictly ascending price, equal prices in
admission (id) order. -/
def slexSell (a b : Order) : Prop :=
  XInt.lt a.price b.price = true ∨ (a.price = b.price ∧ ordId a < ordId b)

instance : DecidableRel slexBuy := fun a b => by unfold slexBuy; infer_instance

instance : DecidableRel slexSell := fun a b => by unfold slexSell; infer_instance

theorem XInt.le_antisymm {a b : XInt} (h₁ : XInt.le a b = true)
    (h₂ : XInt.le b a = true) : a = b := by
  cases a <;> cases b <;> simp_all [XInt.le] <;> omega

theorem rBuy_trans (a b c : Order) (h₁ : rBuy a b) (h₂ : rBuy b c) : rBuy a c :=
  XInt.le_trans h₂ h₁

theorem rSell_trans (a b c : Order) (h₁ : rSell a b) (h₂ : rSell b c) : rSell a c :=
  XInt.le_trans h₁ h₂

theorem slexBuy_trans (a b c : Order) (h₁ : slexBuy a b) (h₂ : slexBuy b c) :
    slexBuy a c := by
  rcases h₁ with h₁ | ⟨e₁, i₁⟩ <;> rcases h₂ with h₂ | ⟨e₂, i₂⟩
  · exact Or.inl (XInt.lt_trans h₂ h₁)
  · exact Or.inl (e₂ ▸ h₁)
  · exact Or.inl (by rw [e₁]; exact h₂)
  · exact Or.inr ⟨e₁.trans e₂, Nat.lt_trans i₁ i₂⟩

theorem slexSell_trans (a b c : Order) (h₁ : slexSell a b) (h₂ : slexSell b c) :
    slexSell a c := by
  rcases h₁ with h₁ | ⟨e₁, i₁⟩ <;> rcases h₂ with h₂ | ⟨e₂, i₂⟩
  · exact Or.inl (XInt.lt_trans h₁ h₂)
  · exact Or.inl (by rw [← e₂]; exact h₁)
  · exact Or.inl (by rw [e₁]; exact h₂)
  · exact Or.inr ⟨e₁.trans e₂, Nat.lt_trans i₁ i₂⟩

theorem slexBuy_weaken (a b : Order) (h : slexBuy a b) : rBuy a b := by
  rcases h with h | ⟨e, _⟩
  · exact XInt.le_iff_lt_or_eq.mpr (Or.inl h)
  · exact XInt.le_iff_lt_or_eq.mpr (Or.inr e.symm)

theorem slexSell_weaken (a b : Order) (h : slexSell a b) : rSell a b := by
  rcases h with h | ⟨e, _⟩
  · exact XInt.le_iff_lt_or_eq.mpr (Or.inl h)
  · exact XInt.le_iff_lt_or_eq.mpr (Or.inr e)

theorem slexBuy_of_not_rBuy (a b : Order) (h : ¬ rBuy a b) : slexBuy b a := by
  unfold rBuy at h
  rw [Bool.not_eq_true] at h
  exact Or.inl (XInt.not_le_iff_lt.mp h)

theorem slexSell_of_not_rSell (a b : Order) (h : ¬ rSell a b) : slexSell b a := by
  unfold rSell at h
  rw [Bool.not_eq_true] at h
  exact Or.inl (XInt.not_le_iff_lt.mp h)

theorem slexBuy_of_tie (a b : Order) (h₁ : rBuy a b) (h₂ : rBuy b a)
    (h : ordId a < ordId b) : slexBuy a b :=
  Or.inr ⟨XInt.le_antisymm h₂ h₁, h⟩

theorem slexSell_of_tie (a b : Order) (h₁ : rSell a b) (h₂ : rSell b a)
    (h : ordId a < ordId b) : slexSell a b :=
  Or.inr ⟨XInt.le_antisymm h₁ h₂, h⟩

theorem sortBuy_eq_of_pairwise {l : List Order} (h : l.Pairwise slexBuy) :
    sortBuy l = l :=
  List.Sorted.insertionSort_eq (h.imp (slexBuy_weaken _ _))

theorem sortSell_eq_of_pairwise {l : List Order} (h : l.Pairwise slexSell) :
    sortSell l = l :=
  List.Sorted.insertionSort_eq (h.imp (slexSell_weaken _ _))

theorem sortBuy_append_pairwise {l : List Order} {a : Order}
    (h : l.Pairwise slexBuy) (hfresh : ∀ b ∈ l, ordId b < ordId a) :
    (sortBuy (l ++ [a])).Pairwise slexBuy :=
  pairwise_insertionSort_append rBuy_trans slexBuy_trans slexBuy_weaken
    slexBuy_of_not_rBuy slexBuy_of_tie a l h hfresh

theorem sortSell_append_pairwise {l : List Order} {a : Order}
    (h : l.Pairwise slexSell) (hfresh : ∀ b ∈ l, ordId b < ordId a) :
    (sortSell (l ++ [a])).Pairwise slexSell :=
  pairwise_insertionSort_append rSell_trans slexSell_trans slexSell_weaken
    slexSell_of_not_rSell slexSell_of_tie a l h hfresh

theorem sortBuy_eq_nil {l : List Order} (h : sortBuy l = []) : l = [] := by
  have hlen := List.length_insertionSort rBuy l
  rw [show List.insertionSort rBuy l = sortBuy l from rfl, h] at hlen
  exact List.eq_nil_of_length_eq_zero hlen.symm

theorem sortSell_eq_nil {l : List Order} (h : sortSell l = []) : l = [] := by
  have hlen := List.length_insertionSort rSell l
  rw [show List.insertionSort rSell l = sortSell l from rfl, h] at hlen
  exact List.eq_nil_of_length_eq_zero hlen.symm

/-- Unfolding: `refreshCaches` re-sorts both sides and repoints each cache at the
head of its side when that side is non-empty; an empty side keeps its
previous cached order. -/
theorem refreshCaches_eq (bk : OrderBook) :
    refreshCaches bk = { bk with
      buy_orders := sortBuy bk.buy_orders
      sell_orders := sortSell bk.sell_orders
      highest_bid_order := (sortBuy bk.buy_orders).headD bk.highest_bid_order
      lowest_offer_order := (sortSell bk.sell_orders).headD bk.lowest_offer_order } := by
  obtain ⟨pn, so, bo, hbo, loo, oc, nt, hist, bbh, bah, eh⟩ := bk
  unfold refreshCaches
  rcases hsb : sortBuy bo with _ | ⟨b, bs⟩ <;>
    rcases hss : sortSell so with _ | ⟨s, ss⟩
  · obtain rfl : bo = [] := sortBuy_eq_nil hsb
    obtain rfl : so = [] := sortSell_eq_nil hss
    simp [hsb, hss]
  · obtain rfl : bo = [] := sortBuy_eq_nil hsb
    simp [hsb, hss]
  · obtain rfl : so = [] := sortSell_eq_nil hss
    simp [hsb, hss]
  · simp [hsb, hss]

/-- What one successful `execute` call does to the book: one transaction
appended, the matched resting order erased from the opposite side, the
caches and counters otherwise untouched. -/
theorem execute_char {book : OrderBook} {env : Env} {inc res : Order}
    {bk' : OrderBook} {env' : Env}
    (h : book.execute env inc res = some (bk', env')) :
    bk'.product_name = book.product_name ∧
    bk'.order_count = book.order_count ∧
    bk'.num_transactions = book.num_transactions + 1 ∧
    bk'.highest_bid_order = book.highest_bid_order ∧
    bk'.lowest_offer_order = book.lowest_offer_order ∧
    ((0 ≤ inc.quantity ∧ bk'.buy_orders = book.buy_orders ∧
        res ∈ book.sell_orders ∧ bk'.sell_orders = book.sell_orders.erase res) ∨
      (inc.quantity < 0 ∧ bk'.sell_orders = book.sell_orders ∧
        res ∈ book.buy_orders ∧ bk'.buy_orders = book.buy_orders.erase res)) := by
  by_cases hq : (0 : Int) ≤ inc.quantity
  · rw [OrderBook.execute, if_pos (by simpa using hq), pyRemove_eq] at h
    by_cases hm : res ∈ book.sell_orders
    · rw [if_pos hm] at h
      rw [Option.some.injEq, Prod.mk.injEq] at h
      obtain ⟨hbk, henv⟩ := h
      subst hbk
      refine ⟨rfl, rfl, rfl, rfl, rfl, Or.inl ⟨hq, rfl, hm, rfl⟩⟩
    · rw [if_neg hm] at h
      cases h
  · rw [OrderBook.execute, if_neg (by simpa using hq), pyRemove_eq] at h
    by_cases hm : res ∈ book.buy_orders
    · rw [if_pos hm] at h
      rw [Option.some.injEq, Prod.mk.injEq] at h
      obtain ⟨hbk, henv⟩ := h
      subst hbk
      refine ⟨rfl, rfl, rfl, rfl, rfl, Or.inr ⟨by omega, rfl, hm, rfl⟩⟩
    · rw [if_neg hm] at h
      cases h

/-- What `_can_order_be_executed` can return: `False` with the state
untouched, or the result of executing against the cached best opposite
order. -/
theorem canexec_char {bk : OrderBook} {env : Env} {o : Order} {ib b : Bool}
    {bk2 : OrderBook} {env2 : Env}
    (h : bk.can_order_be_executed env o ib = some (b, bk2, env2)) :
    (b = false ∧ bk2 = bk ∧ env2 = env) ∨
    (b = true ∧
      ((ib = true ∧ bk.execute env o bk.lowest_offer_order = some (bk2, env2)) ∨
        (ib = false ∧ bk.execute env o bk.highest_bid_order = some (bk2, env2)))) := by
  rw [OrderBook.can_order_be_executed] at h
  split at h
  · rw [Option.some.injEq, Prod.mk.injEq, Prod.mk.injEq] at h
    exact Or.inl ⟨h.1.symm, h.2.1.symm, h.2.2.symm⟩
  · split at h
    · next hc =>
      rcases hex : bk.execute env o bk.lowest_offer_order with _ | pr
      · rw [hex] at h; cases h
      · rw [hex] at h
        simp only [Option.map_some', Option.some.injEq, Prod.mk.injEq] at h
        obtain ⟨hb, hrest⟩ := h
        have hib : ib = true := by
          rcases ib
          · simp at hc
          · rfl
        exact Or.inr ⟨hb.symm, Or.inl ⟨hib, by rw [hrest]⟩⟩
    · split at h
      · next hc =>
        rcases hex : bk.execute env o bk.highest_bid_order with _ | pr
        · rw [hex] at h; cases h
        · rw [hex] at h
          simp only [Option.map_some', Option.some.injEq, Prod.mk.injEq] at h
          obtain ⟨hb, hrest⟩ := h
          have hib : ib = false := by
            rcases ib
            · rfl
            · simp at hc
          exact Or.inr ⟨hb.symm, Or.inr ⟨hib, by rw [hrest]⟩⟩
      · rw [Option.some.injEq, Prod.mk.injEq, Prod.mk.injEq] at h
        exact Or.inl ⟨h.1.symm, h.2.1.symm, h.2.2.symm⟩


structure Inv (book : OrderBook) : Prop where
  sortedB : book.buy_orders.Pairwise slexBuy
  sortedS : book.sell_orders.Pairwise slexSell
  ids : ∀ o ∈ book.buy_orders ++ book.sell_orders,
    ∃ k, o.id = some k ∧ k < book.order_count
  amo : ∀ a : Nat, (book.buy_orders ++ book.sell_orders).countP (ownP a) ≤ 1

theorem countP_sortBuy (p : Order → Bool) (l : List Order) :
    (sortBuy l).countP p = l.countP p :=
  (List.perm_insertionSort rBuy l).countP_eq p

theorem countP_sortSell (p : Order → Bool) (l : List Order) :
    (sortSell l).countP p = l.countP p :=
  (List.perm_insertionSort rSell l).countP_eq p

theorem mem_sortBuy {o : Order} {l : List Order} : o ∈ sortBuy l ↔ o ∈ l := by
  simp [sortBuy]

theorem mem_sortSell {o : Order} {l : List Order} : o ∈ sortSell l ↔ o ∈ l := by
  simp [sortSell]

theorem inv_refresh_of_parts {Z : OrderBook}
    (hb : (sortBuy Z.buy_orders).Pairwise slexBuy)
    (hs : (sortSell Z.sell_orders).Pairwise slexSell)
    (hi : ∀ o ∈ Z.buy_orders ++ Z.sell_orders, ∃ k, o.id = some k ∧ k < Z.order_count)
    (ha : ∀ a, (Z.buy_orders ++ Z.sell_orders).countP (ownP a) ≤ 1) :
    Inv (refreshCaches Z) := by
  rw [refreshCaches_eq]
  constructor
  · exact hb
  · exact hs
  · intro o ho
    rcases List.mem_append.mp ho with hmem | hmem
    · exact hi o (List.mem_append.mpr (Or.inl (mem_sortBuy.mp hmem)))
    · exact hi o (List.mem_append.mpr (Or.inr (mem_sortSell.mp hmem)))
  · intro a
    show ((sortBuy Z.buy_orders) ++ (sortSell Z.sell_orders)).countP (ownP a) ≤ 1
    rw [List.countP_append, countP_sortBuy, countP_sortSell, ← List.countP_append]
    exact ha a

theorem pyFR_own_countP_zero {l : List Order} {ag : Nat}
    (h : l.countP (ownP ag) ≤ 1) :
    (pyForRemove (ownP ag) l).countP (ownP ag) = 0 := by
  rw [pyForRemove_eq_filter _ _ h]
  apply List.countP_eq_zero.mpr
  intro e he hcon
  have h2 := (List.mem_filter.mp he).2
  rw [hcon] at h2
  simp at h2

theorem ordId_lt_of_memB {book : OrderBook} (hInv : Inv book) {b : Order}
    (hb : b ∈ book.buy_orders) : ordId b < book.order_count := by
  obtain ⟨k, h1, h2⟩ := hInv.ids b (List.mem_append.mpr (Or.inl hb))
  rw [ordId, h1]
  simpa using h2

theorem ordId_lt_of_memS {book : OrderBook} (hInv : Inv book) {b : Order}
    (hb : b ∈ book.sell_orders) : ordId b < book.order_count := by
  obtain ⟨k, h1, h2⟩ := hInv.ids b (List.mem_append.mpr (Or.inr hb))
  rw [ordId, h1]
  simpa using h2

theorem inv_refresh_from_sub {book : OrderBook} {bk2 : OrderBook}
    (hInv : Inv book) (ag : Nat)
    (hsub2B : List.Sublist bk2.buy_orders (pyForRemove (ownP ag) book.buy_orders))
    (hsub2S : List.Sublist bk2.sell_orders (pyForRemove (ownP ag) book.sell_orders))
    (hoc : bk2.order_count = book.order_count + 1) :
    Inv (refreshCaches bk2) := by
  have hsubB := pyForRemove_sublist (ownP ag) book.buy_orders
  have hsubS := pyForRemove_sublist (ownP ag) book.sell_orders
  have hpw2B : bk2.buy_orders.Pairwise slexBuy :=
    List.Pairwise.sublist (hsub2B.trans hsubB) hInv.sortedB
  have hpw2S : bk2.sell_orders.Pairwise slexSell :=
    List.Pairwise.sublist (hsub2S.trans hsubS) hInv.sortedS
  apply inv_refresh_of_parts
  · rw [sortBuy_eq_of_pairwise hpw2B]; exact hpw2B
  · rw [sortSell_eq_of_pairwise hpw2S]; exact hpw2S
  · intro o ho
    rw [hoc]
    rcases List.mem_append.mp ho with hmem | hmem
    · obtain ⟨k, h1, h2⟩ := hInv.ids o
        (List.mem_append.mpr (Or.inl ((hsub2B.trans hsubB).subset hmem)))
      exact ⟨k, h1, by omega⟩
    · obtain ⟨k, h1, h2⟩ := hInv.ids o
        (List.mem_append.mpr (Or.inr ((hsub2S.trans hsubS).subset hmem)))
      exact ⟨k, h1, by omega⟩
  · intro a
    rw [List.countP_append]
    have h1 := (hsub2B.trans hsubB).countP_le (ownP a)
    have h2 := (hsub2S.trans hsubS).countP_le (ownP a)
    have := hInv.amo a
    rw [List.countP_append] at this
    omega

theorem Inv.add_preserved {book : OrderBook} {env : Env} {order : Order}
    {book' : OrderBook} {env' : Env} (hInv : Inv book)
    (h : book.add env order = some (book', env')) : Inv book' := by
  have hamoB : book.buy_orders.countP (ownP order.agent) ≤ 1 := by
    have := hInv.amo order.agent; rw [List.countP_append] at this; omega
  have hamoS : book.sell_orders.countP (ownP order.agent) ≤ 1 := by
    have := hInv.amo order.agent; rw [List.countP_append] at this; omega
  have hpwB : (pyForRemove (ownP order.agent) book.buy_orders).Pairwise slexBuy :=
    List.Pairwise.sublist (pyForRemove_sublist _ _) hInv.sortedB
  have hpwS : (pyForRemove (ownP order.agent) book.sell_orders).Pairwise slexSell :=
    List.Pairwise.sublist (pyForRemove_sublist _ _) hInv.sortedS
  have hsubB := pyForRemove_sublist (ownP order.agent) book.buy_orders
  have hsubS := pyForRemove_sublist (ownP order.agent) book.sell_orders
  have hamoA : ∀ a : Nat,
      (pyForRemove (ownP order.agent) book.buy_orders).countP (ownP a) +
      (pyForRemove (ownP order.agent) book.sell_orders).countP (ownP a) ≤ 1 := by
    intro a
    have := hInv.amo a
    rw [List.countP_append] at this
    have h1 := hsubB.countP_le (ownP a)
    have h2 := hsubS.countP_le (ownP a)
    omega
  have hfreshB : ∀ b ∈ pyForRemove (ownP order.agent) book.buy_orders,
      ordId b < book.order_count :=
    fun b hb => ordId_lt_of_memB hInv (hsubB.subset hb)
  have hfreshS : ∀ b ∈ pyForRemove (ownP order.agent) book.sell_orders,
      ordId b < book.order_count :=
    fun b hb => ordId_lt_of_memS hInv (hsubS.subset hb)
  have hidB : ∀ o ∈ pyForRemove (ownP order.agent) book.buy_orders,
      ∃ k, o.id = some k ∧ k < book.order_count + 1 := by
    intro o ho
    obtain ⟨k, h1, h2⟩ := hInv.ids o (List.mem_append.mpr (Or.inl (hsubB.subset ho)))
    exact ⟨k, h1, by omega⟩
  have hidS : ∀ o ∈ pyForRemove (ownP order.agent) book.sell_orders,
      ∃ k, o.id = some k ∧ k < book.order_count + 1 := by
    intro o ho
    obtain ⟨k, h1, h2⟩ := hInv.ids o (List.mem_append.mpr (Or.inr (hsubS.subset ho)))
    exact ⟨k, h1, by omega⟩
  simp only [OrderBook.add, OrderBook.should_remove_existing_order] at h
  split at h
  · -- legitimate: match on _can_order_be_executed
    split at h
    · exact Option.noConfusion h
    · next x ow bk2 env2 heq =>
      rw [Option.some.injEq, Prod.mk.injEq] at h
      obtain ⟨hb', henv'⟩ := h
      subst hb'
      rcases canexec_char heq with ⟨how, hbk2, henv2⟩ | ⟨how, hor⟩
      · -- not executed: the incoming order is appended to its side
        subst how
        subst hbk2
        by_cases hq : (0 : Int) ≤ order.quantity
        · rw [if_pos (show (!false) = true from rfl),
            if_pos (show decide (0 ≤ order.quantity) = true by simp [hq])]
          apply inv_refresh_of_parts
          · exact sortBuy_append_pairwise hpwB hfreshB
          · rw [sortSell_eq_of_pairwise hpwS]; exact hpwS
          · intro o ho
            rcases List.mem_append.mp ho with hmem | hmem
            · rcases List.mem_append.mp hmem with hmem2 | hmem2
              · exact hidB o hmem2
              · rw [List.mem_singleton.mp hmem2]
                exact ⟨book.order_count, rfl, by
                  show book.order_count < book.order_count + 1
                  omega⟩
            · exact hidS o hmem
          · intro a
            show (((pyForRemove (ownP order.agent) book.buy_orders) ++
                [{ order with id := some book.order_count }]) ++
                (pyForRemove (ownP order.agent) book.sell_orders)).countP (ownP a) ≤ 1
            rw [List.countP_append, List.countP_append]
            by_cases hag : a = order.agent
            · subst hag
              rw [pyFR_own_countP_zero hamoB, pyFR_own_countP_zero hamoS]
              simp [ownP]
            · have h0 : (List.countP (ownP a) [{ order with id := some book.order_count }]) = 0 := by
                simp [ownP]
                exact fun hcon => hag hcon.symm
              rw [h0]
              have := hamoA a
              omega
        · rw [if_pos (show (!false) = true from rfl),
            if_neg (show ¬ decide (0 ≤ order.quantity) = true by simp [hq])]
          apply inv_refresh_of_parts
          · rw [sortBuy_eq_of_pairwise hpwB]; exact hpwB
          · exact sortSell_append_pairwise hpwS hfreshS
          · intro o ho
            rcases List.mem_append.mp ho with hmem | hmem
            · exact hidB o hmem
            · rcases List.mem_append.mp hmem with hmem2 | hmem2
              · exact hidS o hmem2
              · rw [List.mem_singleton.mp hmem2]
                exact ⟨book.order_count, rfl, by
                  show book.order_count < book.order_count + 1
                  omega⟩
          · intro a
            show ((pyForRemove (ownP order.agent) book.buy_orders) ++
                ((pyForRemove (ownP order.agent) book.sell_orders) ++
                [{ order with id := some book.order_count }])).countP (ownP a) ≤ 1
            rw [List.countP_append, List.countP_append]
            by_cases hag : a = order.agent
            · subst hag
              rw [pyFR_own_countP_zero hamoB, pyFR_own_countP_zero hamoS]
              simp [ownP]
            · have h0 : (List.countP (ownP a) [{ order with id := some book.order_count }]) = 0 := by
                simp [ownP]
                exact fun hcon => hag hcon.symm
              rw [h0]
              have := hamoA a
              omega
      · -- executed: one resting order erased from the opposite side
        subst how
        rw [if_neg (show ¬ (!true) = true by simp)]
        rcases hor with ⟨_, hex⟩ | ⟨_, hex⟩
        · obtain ⟨hpn, hoc, hnt, hhb, hlo, hsides⟩ := execute_char hex
          refine inv_refresh_from_sub hInv order.agent ?_ ?_ ?_
          · rcases hsides with ⟨_, hbb, _, _⟩ | ⟨_, _, _, hbe⟩
            · rw [hbb]
            · rw [hbe]; exact List.erase_sublist _ _
          · rcases hsides with ⟨_, _, _, hbs⟩ | ⟨_, hss, _, _⟩
            · rw [hbs]; exact List.erase_sublist _ _
            · rw [hss]
          · exact hoc
        · obtain ⟨hpn, hoc, hnt, hhb, hlo, hsides⟩ := execute_char hex
          refine inv_refresh_from_sub hInv order.agent ?_ ?_ ?_
          · rcases hsides with ⟨_, hbb, _, _⟩ | ⟨_, _, _, hbe⟩
            · rw [hbb]
            · rw [hbe]; exact List.erase_sublist _ _
          · rcases hsides with ⟨_, _, _, hbs⟩ | ⟨_, hss, _, _⟩
            · rw [hbs]; exact List.erase_sublist _ _
            · rw [hss]
          · exact hoc
  · -- illegitimate: the order is dropped after the removal pass
    rw [Option.some.injEq, Prod.mk.injEq] at h
    obtain ⟨hb', henv'⟩ := h
    subst hb'
    constructor
    · exact hpwB
    · exact hpwS
    · intro o ho
      rcases List.mem_append.mp ho with hmem | hmem
      · exact hidB o hmem
      · exact hidS o hmem
    · intro a
      rw [List.countP_append]
      exact hamoA a

/-- Book states reachable through the `OrderBook` interface: a fresh
book, admissions that did not raise, step snapshots, resets; the balance
environment may also change arbitrarily between operations (other books
trade against the same balances). -/
inductive Reachable : Env → OrderBook → Prop where
  | init (env : Env) (name : String) : Reachable env (OrderBook.init name)
  | add {env : Env} {book : OrderBook} (order : Order) {book' : OrderBook}
      {env' : Env} (h : Reachable env book)
      (hadd : book.add env order = some (book', env')) : Reachable env' book'
  | step {env : Env} {book : OrderBook} (h : Reachable env book) :
      Reachable env book.step
  | reset {env : Env} {book : OrderBook} (h : Reachable env book) :
      Reachable env book.reset
  | envch {env : Env} (env' : Env) {book : OrderBook}
      (h : Reachable env book) : Reachable env' book

theorem inv_init (name : String) : Inv (OrderBook.init name) := by
  constructor <;> simp [OrderBook.init]

theorem Inv.step_preserved {book : OrderBook} (hInv : Inv book) :
    Inv book.step :=
  ⟨hInv.sortedB, hInv.sortedS, hInv.ids, hInv.amo⟩

theorem Inv.reset_preserved (book : OrderBook) : Inv book.reset := by
  constructor <;> simp [OrderBook.reset]

/-- Every reachable book state satisfies the structural invariants. -/
theorem reachable_inv {env : Env} {book : OrderBook}
    (h : Reachable env book) : Inv book := by
  induction h with
  | init env name => exact inv_init name
  | add order h hadd ih => exact ih.add_preserved hadd
  | step h ih => exact ih.step_preserved
  | reset h ih => exact Inv.reset_preserved _
  | envch env' h ih => exact ih

/-! ### Evaluation lemmas for the admission paths -/

theorem canexec_cross_buy {bk : OrderBook} {env : Env} {o : Order}
    (hne : bk.sell_orders ≠ [])
    (hcr : XInt.le bk.lowest_offer_order.price o.price = true) :
    bk.can_order_be_executed env o true =
      (bk.execute env o bk.lowest_offer_order).map (fun r => (true, r)) := by
  rw [OrderBook.can_order_be_executed,
    if_neg (by simp [List.isEmpty_iff, hne]), if_pos (by simp [hcr])]

theorem canexec_cross_sell {bk : OrderBook} {env : Env} {o : Order}
    (hne : bk.buy_orders ≠ [])
    (hcr : XInt.le o.price bk.highest_bid_order.price = true) :
    bk.can_order_be_executed env o false =
      (bk.execute env o bk.highest_bid_order).map (fun r => (true, r)) := by
  rw [OrderBook.can_order_be_executed,
    if_neg (by simp [List.isEmpty_iff, hne]), if_neg (by simp), if_pos (by simp [hcr])]

theorem execute_buy_eval {bk : OrderBook} {env : Env} {inc res : Order}
    {l' : List Order} (hq : 0 ≤ inc.quantity)
    (hrem : pyRemove res bk.sell_orders = some l') :
    bk.execute env inc res = some
      ({ bk with
          sell_orders := l'
          event_history := bk.event_history ++
            [{ seller_agent := res.agent
               buyer_agent := inc.agent
               good := bk.product_name
               quantity := min |inc.quantity| |res.quantity|
               price := res.price
               step := 0 }]
          history := bk.history ++
            [{ transaction_id := bk.num_transactions
               price := res.price
               quantity := min |inc.quantity| |res.quantity|
               buyer := inc.agent
               seller := res.agent }]
          num_transactions := bk.num_transactions + 1 },
        trade env inc.agent ("capital", res.price)
          (bk.product_name, XInt.fin (min |inc.quantity| |res.quantity|)) res.agent) := by
  rw [OrderBook.execute, if_pos (by simp [hq]), hrem]

theorem execute_sell_eval {bk : OrderBook} {env : Env} {inc res : Order}
    {l' : List Order} (hq : inc.quantity < 0)
    (hrem : pyRemove res bk.buy_orders = some l') :
    bk.execute env inc res = some
      ({ bk with
          buy_orders := l'
          event_history := bk.event_history ++
            [{ seller_agent := inc.agent
               buyer_agent := res.agent
               good := bk.product_name
               quantity := min |inc.quantity| |res.quantity|
               price := res.price
               step := 0 }]
          history := bk.history ++
            [{ transaction_id := bk.num_transactions
               price := res.price
               quantity := min |inc.quantity| |res.quantity|
               buyer := res.agent
               seller := inc.agent }]
          num_transactions := bk.num_transactions + 1 },
        trade env inc.agent
          (bk.product_name, XInt.fin (min |inc.quantity| |res.quantity|))
          ("capital", res.price) res.agent) := by
  rw [OrderBook.execute, if_neg (by simp; omega), hrem]

/-- The full effect of accepting a legitimate crossing buy order when the
book is coherent (sorted sides, at most one resting order per agent,
cache pointing at the actual best offer `shd`, which the incoming agent
does not own): the single best offer is consumed at its own price, the
excess is discarded, and exactly one trade is recorded. -/
theorem add_cross_buy {book : OrderBook} {env : Env} {order : Order}
    {shd : Order} {stl : List Order}
    (h1 : book.sell_orders = shd :: stl)
    (h2 : book.lowest_offer_order = shd)
    (hsS : book.sell_orders.Pairwise slexSell)
    (hsB : book.buy_orders.Pairwise slexBuy)
    (hamoS : book.sell_orders.countP (ownP order.agent) ≤ 1)
    (hamoB : book.buy_orders.countP (ownP order.agent) ≤ 1)
    (hq : 0 ≤ order.quantity)
    (hlegit : book.is_order_legitimate env order true = true)
    (hcross : XInt.le shd.price order.price = true)
    (hagent : shd.agent ≠ order.agent) :
    book.add env order = some
      ({ book with
          order_count := book.order_count + 1
          num_transactions := book.num_transactions + 1
          buy_orders := book.buy_orders.filter (fun e => !(ownP order.agent e))
          sell_orders := stl.filter (fun e => !(ownP order.agent e))
          highest_bid_order :=
            (book.buy_orders.filter (fun e => !(ownP order.agent e))).headD
              book.highest_bid_order
          lowest_offer_order :=
            (stl.filter (fun e => !(ownP order.agent e))).headD
              book.lowest_offer_order
          history := book.history ++
            [{ transaction_id := book.num_transactions
               price := shd.price
               quantity := min |order.quantity| |shd.quantity|
               buyer := order.agent
               seller := shd.agent }]
          event_history := book.event_history ++
            [{ seller_agent := shd.agent
               buyer_agent := order.agent
               good := book.product_name
               quantity := min |order.quantity| |shd.quantity|
               price := shd.price
               step := 0 }] },
        trade env order.agent ("capital", shd.price)
          (book.product_name, XInt.fin (min |order.quantity| |shd.quantity|))
          shd.agent) := by
  have hdec : decide (0 ≤ order.quantity) = true := by simp [hq]
  have hfB : pyForRemove (ownP order.agent) book.buy_orders
      = book.buy_orders.filter (fun e => !(ownP order.agent e)) :=
    pyForRemove_eq_filter _ _ hamoB
  have hfS : pyForRemove (ownP order.agent) book.sell_orders
      = shd :: stl.filter (fun e => !(ownP order.agent e)) := by
    rw [pyForRemove_eq_filter _ _ hamoS, h1,
      List.filter_cons_of_pos (by simp [ownP, hagent])]
  simp only [OrderBook.add, OrderBook.should_remove_existing_order, hdec]
  rw [if_pos (show OrderBook.is_order_legitimate
      { book with order_count := book.order_count + 1 } env
      { order with id := some book.order_count } true = true from hlegit)]
  generalize hB1 : ({ book with
      order_count := book.order_count + 1
      sell_orders := pyForRemove (ownP order.agent) book.sell_orders
      buy_orders := pyForRemove (ownP order.agent) book.buy_orders } : OrderBook) = B1
  have hsells : B1.sell_orders = shd :: stl.filter (fun e => !(ownP order.agent e)) := by
    rw [← hB1]; exact hfS
  have hbuys : B1.buy_orders = book.buy_orders.filter (fun e => !(ownP order.agent e)) := by
    rw [← hB1]; exact hfB
  have hlow : B1.lowest_offer_order = shd := by rw [← hB1]; exact h2
  have hpn : B1.product_name = book.product_name := by rw [← hB1]
  have hnt : B1.num_transactions = book.num_transactions := by rw [← hB1]
  have hoc : B1.order_count = book.order_count + 1 := by rw [← hB1]
  have hhist : B1.history = book.history := by rw [← hB1]
  have hevent : B1.event_history = book.event_history := by rw [← hB1]
  have hbbh : B1.best_bid_history = book.best_bid_history := by rw [← hB1]
  have hbah : B1.best_ask_history = book.best_ask_history := by rw [← hB1]
  have hhbo : B1.highest_bid_order = book.highest_bid_order := by rw [← hB1]
  rw [canexec_cross_buy (show B1.sell_orders ≠ [] by rw [hsells]; simp)
    (show XInt.le B1.lowest_offer_order.price
      ({ order with id := some book.order_count } : Order).price = true by
      rw [hlow]; exact hcross)]
  rw [hlow]
  rw [execute_buy_eval
    (show (0 : Int) ≤ ({ order with id := some book.order_count } : Order).quantity from hq)
    (show pyRemove shd B1.sell_orders
        = some (stl.filter (fun e => !(ownP order.agent e))) by
      rw [hsells, pyRemove_cons_self])]
  simp only [Option.map_some', Bool.not_true, Bool.false_eq_true, if_false]
  have hpwTl : (stl.filter (fun e => !(ownP order.agent e))).Pairwise slexSell :=
    List.Pairwise.sublist (List.filter_sublist _) ((h1 ▸ hsS).of_cons)
  have hpwFB : (book.buy_orders.filter (fun e => !(ownP order.agent e))).Pairwise slexBuy :=
    List.Pairwise.sublist (List.filter_sublist _) hsB
  rw [refreshCaches_eq]
  simp only [sortSell_eq_of_pairwise hpwTl, sortBuy_eq_of_pairwise hpwFB,
    hbuys, hsells, hpn, hoc, hnt, hhist, hevent, hbbh, hbah, hhbo, hlow, h2]

/-- Mirror of `add_cross_buy` for a legitimate crossing sell order: the
single best bid `bhd` is consumed at its own price. -/
theorem add_cross_sell {book : OrderBook} {env : Env} {order : Order}
    {bhd : Order} {btl : List Order}
    (h1 : book.buy_orders = bhd :: btl)
    (h2 : book.highest_bid_order = bhd)
    (hsS : book.sell_orders.Pairwise slexSell)
    (hsB : book.buy_orders.Pairwise slexBuy)
    (hamoS : book.sell_orders.countP (ownP order.agent) ≤ 1)
    (hamoB : book.buy_orders.countP (ownP order.agent) ≤ 1)
    (hq : order.quantity < 0)
    (hlegit : book.is_order_legitimate env order false = true)
    (hcross : XInt.le order.price bhd.price = true)
    (hagent : bhd.agent ≠ order.agent) :
    book.add env order = some
      ({ book with
          order_count := book.order_count + 1
          num_transactions := book.num_transactions + 1
          buy_orders := btl.filter (fun e => !(ownP order.agent e))
          sell_orders := book.sell_orders.filter (fun e => !(ownP order.agent e))
          highest_bid_order :=
            (btl.filter (fun e => !(ownP order.agent e))).headD
              book.highest_bid_order
          lowest_offer_order :=
            (book.sell_orders.filter (fun e => !(ownP order.agent e))).headD
              book.lowest_offer_order
          history := book.history ++
            [{ transaction_id := book.num_transactions
               price := bhd.price
               quantity := min |order.quantity| |bhd.quantity|
               buyer := bhd.agent
               seller := order.agent }]
          event_history := book.event_history ++
            [{ seller_agent := order.agent
               buyer_agent := bhd.agent
               good := book.product_name
               quantity := min |order.quantity| |bhd.quantity|
               price := bhd.price
               step := 0 }] },
        trade env order.agent
          (book.product_name, XInt.fin (min |order.quantity| |bhd.quantity|))
          ("capital", bhd.price) bhd.agent) := by
  have hdec : decide (0 ≤ order.quantity) = false := by simp; omega
  have hfS : pyForRemove (ownP order.agent) book.sell_orders
      = book.sell_orders.filter (fun e => !(ownP order.agent e)) :=
    pyForRemove_eq_filter _ _ hamoS
  have hfB : pyForRemove (ownP order.agent) book.buy_orders
      = bhd :: btl.filter (fun e => !(ownP order.agent e)) := by
    rw [pyForRemove_eq_filter _ _ hamoB, h1,
      List.filter_cons_of_pos (by simp [ownP, hagent])]
  simp only [OrderBook.add, OrderBook.should_remove_existing_order, hdec]
  rw [if_pos (show OrderBook.is_order_legitimate
      { book with order_count := book.order_count + 1 } env
      { order with id := some book.order_count } false = true from hlegit)]
  generalize hB1 : ({ book with
      order_count := book.order_count + 1
      sell_orders := pyForRemove (ownP order.agent) book.sell_orders
      buy_orders := pyForRemove (ownP order.agent) book.buy_orders } : OrderBook) = B1
  have hbuys : B1.buy_orders = bhd :: btl.filter (fun e => !(ownP order.agent e)) := by
    rw [← hB1]; exact hfB
  have hsells : B1.sell_orders = book.sell_orders.filter (fun e => !(ownP order.agent e)) := by
    rw [← hB1]; exact hfS
  have hhigh : B1.highest_bid_order = bhd := by rw [← hB1]; exact h2
  have hpn : B1.product_name = book.product_name := by rw [← hB1]
  have hnt : B1.num_transactions = book.num_transactions := by rw [← hB1]
  have hoc : B1.order_count = book.order_count + 1 := by rw [← hB1]
  have hhist : B1.history = book.history := by rw [← hB1]
  have hevent : B1.event_history = book.event_history := by rw [← hB1]
  have hbbh : B1.best_bid_history = book.best_bid_history := by rw [← hB1]
  have hbah : B1.best_ask_history = book.best_ask_history := by rw [← hB1]
  have hloo : B1.lowest_offer_order = book.lowest_offer_order := by rw [← hB1]
  rw [canexec_cross_sell (show B1.buy_orders ≠ [] by rw [hbuys]; simp)
    (show XInt.le ({ order with id := some book.order_count } : Order).price
      B1.highest_bid_order.price = true by rw [hhigh]; exact hcross)]
  rw [hhigh]
  rw [execute_sell_eval
    (show ({ order with id := some book.order_count } : Order).quantity < 0 from hq)
    (show pyRemove bhd B1.buy_orders
        = some (btl.filter (fun e => !(ownP order.agent e))) by
      rw [hbuys, pyRemove_cons_self])]
  simp only [Option.map_some', Bool.not_true, Bool.false_eq_true, if_false]
  have hpwTl : (btl.filter (fun e => !(ownP order.agent e))).Pairwise slexBuy :=
    List.Pairwise.sublist (List.filter_sublist _) ((h1 ▸ hsB).of_cons)
  have hpwFS : (book.sell_orders.filter (fun e => !(ownP order.agent e))).Pairwise slexSell :=
    List.Pairwise.sublist (List.filter_sublist _) hsS
  rw [refreshCaches_eq]
  simp only [sortBuy_eq_of_pairwise hpwTl, sortSell_eq_of_pairwise hpwFS,
    hbuys, hsells, hpn, hoc, hnt, hhist, hevent, hbbh, hbah, hloo, hhigh, h2]

/-- An illegitimate order is dropped with no error: nothing is inserted
or matched and the balances are untouched, but the unconditional removal
of the submitting agent's resting orders has already happened (and the
caches are not refreshed). -/
theorem add_illegit {book : OrderBook} {env : Env} {order : Order}
    (h : book.is_order_legitimate env order (decide (0 ≤ order.quantity)) = false) :
    book.add env order = some
      ({ book with
          order_count := book.order_count + 1
          sell_orders := pyForRemove (ownP order.agent) book.sell_orders
          buy_orders := pyForRemove (ownP order.agent) book.buy_orders }, env) := by
  simp only [OrderBook.add, OrderBook.should_remove_existing_order]
  rw [if_neg (show ¬ OrderBook.is_order_legitimate
      { book with order_count := book.order_count + 1 } env
      { order with id := some book.order_count }
      (decide (0 ≤ order.quantity)) = true by
    rw [show OrderBook.is_order_legitimate
      { book with order_count := book.order_count + 1 } env
      { order with id := some book.order_count }
      (decide (0 ≤ order.quantity)) = false from h]
    simp)]

/-- When `l.head?` is `some o`, `l.headD d` is `o`. -/
theorem headD_of_head? {l : List Order} {o d : Order}
    (h : l.head? = some o) : l.headD d = o := by
  cases l with
  | nil => cases h
  | cons x xs => simpa using (Option.some.inj h)

/-- After any legitimate admission that returned, both caches agree with
the heads of their (re-sorted) sides whenever those sides are non-empty. -/
theorem add_legit_cacheok {book : OrderBook} {env : Env} {order : Order}
    {book' : OrderBook} {env' : Env}
    (h : book.add env order = some (book', env'))
    (hleg : book.is_order_legitimate env order (decide (0 ≤ order.quantity)) = true) :
    (∀ o, book'.buy_orders.head? = some o → book'.highest_bid_order = o) ∧
    (∀ o, book'.sell_orders.head? = some o → book'.lowest_offer_order = o) := by
  simp only [OrderBook.add, OrderBook.should_remove_existing_order] at h
  rw [if_pos (show OrderBook.is_order_legitimate
      { book with order_count := book.order_count + 1 } env
      { order with id := some book.order_count }
      (decide (0 ≤ order.quantity)) = true from hleg)] at h
  split at h
  · exact Option.noConfusion h
  · next x ow bk2 env2 heq =>
    rw [Option.some.injEq, Prod.mk.injEq] at h
    obtain ⟨hb', henv'⟩ := h
    subst hb'
    rw [refreshCaches_eq]
    constructor
    · intro o ho
      exact headD_of_head? ho
    · intro o ho
      exact headD_of_head? ho

/-! ### Settlement balance arithmetic -/

theorem trade_eval (env : Env) (s : Nat) (g1 g2 : String) (a1 a2 : XInt)
    (cp : Nat) (hg : g1 ≠ g2) (hs : s ≠ cp) :
    (trade env s (g1, a1) (g2, a2) cp s g1 = XInt.add (env s g1) (XInt.neg a1)) ∧
    (trade env s (g1, a1) (g2, a2) cp s g2 = XInt.add (env s g2) a2) ∧
    (trade env s (g1, a1) (g2, a2) cp cp g1 = XInt.add (env cp g1) a1) ∧
    (trade env s (g1, a1) (g2, a2) cp cp g2 = XInt.add (env cp g2) (XInt.neg a2)) ∧
    (∀ a g, a ≠ s → a ≠ cp → trade env s (g1, a1) (g2, a2) cp a g = env a g) ∧
    (∀ a g, g ≠ g1 → g ≠ g2 → trade env s (g1, a1) (g2, a2) cp a g = env a g) := by
  refine ⟨?_, ?_, ?_, ?_, ?_, ?_⟩
  · simp [trade, Env.addTo, hs, hg, Ne.symm hg]
  · simp [trade, Env.addTo, hs, hg, Ne.symm hg]
  · simp [trade, Env.addTo, hs, hg, Ne.symm hg, Ne.symm hs]
  · simp [trade, Env.addTo, hs, hg, Ne.symm hg, Ne.symm hs]
  · intro a g ha1 ha2
    simp [trade, Env.addTo, ha1, ha2]
  · intro a g hg1 hg2
    simp [trade, Env.addTo, hg1, hg2]

/-! ### Concrete scenarios used by witnesses and counterexamples -/

/-- Balances: agent 1 has 100 capital, agent 2 holds 5 of good `g`,
agent 3 has 8 capital. -/
def envA : Env := fun a g =>
  if a = 1 then (if g = "capital" then .fin 100 else .fin 0)
  else if a = 2 then (if g = "g" then .fin 5 else .fin 0)
  else if a = 3 then (if g = "capital" then .fin 8 else .fin 0)
  else .fin 0

def buyA : Order := { good := "g", price := .fin 10, quantity := 3, agent := 1 }

def sellB : Order := { good := "g", price := .fin 9, quantity := -3, agent := 2 }

def buyC : Order := { good := "g", price := .fin 8, quantity := 2, agent := 3 }

/-- Agent 1's buy at 10 resting on a fresh book. -/
def stateA : OrderBook × Env :=
  ((OrderBook.init "g").add envA buyA).getD (OrderBook.init "g", envA)

/-- The order `buyA` as it rests inside `stateA` (id 0 assigned at admission). -/
def restA : Order := { good := "g", price := .fin 10, quantity := 3, agent := 1, id := some 0 }

/-- Scenario B: agent 2's sell at 9 crosses agent 1's resting buy at 10. -/
def stateB : OrderBook × Env :=
  (stateA.1.add stateA.2 sellB).getD (OrderBook.init "g", envA)

/-- Two resting buys (10 then 8). -/
def stateA2 : OrderBook × Env :=
  (stateA.1.add stateA.2 buyC).getD (OrderBook.init "g", envA)

theorem reachA : Reachable stateA.2 stateA.1 :=
  Reachable.add buyA (Reachable.init envA "g") rfl

theorem reachA2 : Reachable stateA2.2 stateA2.1 :=
  Reachable.add buyC reachA rfl

/-- Balances for the excess-quantity scenario: agent 1 has 50 capital,
agent 2 holds 4 of `g`. -/
def envE : Env := fun a g =>
  if a = 1 then (if g = "capital" then .fin 50 else .fin 0)
  else if a = 2 then (if g = "g" then .fin 4 else .fin 0)
  else .fin 0

def sellE : Order := { good := "g", price := .fin 8, quantity := -4, agent := 2 }

def buyBig : Order := { good := "g", price := .fin 10, quantity := 10, agent := 1 }

/-- Agent 2's sell of 4 at 8 resting on a fresh book. -/
def stateE : OrderBook × Env :=
  ((OrderBook.init "g").add envE sellE).getD (OrderBook.init "g", envE)

/-- The order `sellE` as it rests inside `stateE`. -/
def restE : Order := { good := "g", price := .fin 8, quantity := -4, agent := 2, id := some 0 }

/-- Result of executing the 10-lot incoming buy against the resting
4-lot sell. -/
def exE : OrderBook × Env :=
  (stateE.1.execute stateE.2 buyBig restE).getD (stateE.1, stateE.2)

/-- Result of executing `sellB` against the resting `restA`. -/
def exB : OrderBook × Env :=
  (stateA.1.execute stateA.2 sellB restA).getD (stateA.1, stateA.2)

/-- Balances for the stale-cache crash: agent 1 has 6 capital and one
unit of `g`; agent 2 holds one unit of `g`. -/
def envC1 : Env := fun a g =>
  if a = 1 then (if g = "capital" then .fin 6 else if g = "g" then .fin 1 else .fin 0)
  else if a = 2 then (if g = "g" then .fin 1 else .fin 0)
  else .fin 0

def sellB7 : Order := { good := "g", price := .fin 7, quantity := -1, agent := 2 }

def sellA5 : Order := { good := "g", price := .fin 5, quantity := -1, agent := 1 }

def buyA6 : Order := { good := "g", price := .fin 6, quantity := 1, agent := 1 }

/-- Book with agent 2's sell at 7 and agent 1's sell at 5 both resting;
the cached best offer is agent 1's order at 5. -/
def stateC1 : OrderBook × Env :=
  (((OrderBook.init "g").add envC1 sellB7 >>= fun r => r.1.add r.2 sellA5)).getD
    (OrderBook.init "g", envC1)

/-! ### The claims -/

/-- C2: the legitimacy check (side inferred from the quantity's sign, as
`add` invokes it) accepts an order iff its quantity is non-zero and, for
a buy (quantity > 0), the agent's capital balance is at least the
order's unit price — not price times quantity — while for a sell
(quantity < 0) the agent's holding of the traded good is at least the
order's magnitude. -/
theorem C2_legitimacy (env : Env) (book : OrderBook) (o : Order) :
    book.is_order_legitimate env o (decide (0 ≤ o.quantity)) = true ↔
      (o.quantity ≠ 0 ∧
        ((0 < o.quantity ∧ XInt.le o.price (env o.agent "capital") = true) ∨
          (o.quantity < 0 ∧
            XInt.le (XInt.fin |o.quantity|) (env o.agent book.product_name) = true))) := by
  rw [OrderBook.is_order_legitimate]
  by_cases h0 : o.quantity = 0
  · simp [h0]
  · by_cases hq : (0 : Int) ≤ o.quantity
    · simp [h0, hq, show 0 < o.quantity by omega, show ¬ o.quantity < 0 by omega]
    · simp [h0, hq, show o.quantity < 0 by omega, show ¬ 0 < o.quantity by omega]

/-- C4: in every reachable book state, each agent owns at most one
resting order counting the buy side and the sell side together; the
admission path removes all of the submitting agent's resting orders
before at most one new order can rest. -/
theorem C4_at_most_one_per_agent {env : Env} {book : OrderBook}
    (h : Reachable env book) (a : Nat) :
    (book.buy_orders ++ book.sell_orders).countP (ownP a) ≤ 1 :=
  (reachable_inv h).amo a

theorem C4_witness :
    (stateA2.1.buy_orders ++ stateA2.1.sell_orders).countP (ownP 1) ≤ 1 :=
  C4_at_most_one_per_agent reachA2 1

/-- C8: in every reachable book state the buy side is strictly ordered
by descending price and the sell side by ascending price, equal-price
orders appearing in admission order (ids are assigned sequentially at
admission, so increasing id is original insertion order). -/
theorem C8_sides_sorted {env : Env} {book : OrderBook}
    (h : Reachable env book) :
    book.buy_orders.Pairwise slexBuy ∧ book.sell_orders.Pairwise slexSell :=
  ⟨(reachable_inv h).sortedB, (reachable_inv h).sortedS⟩

theorem C8_witness :
    stateA2.1.buy_orders.Pairwise slexBuy ∧
    stateA2.1.sell_orders.Pairwise slexSell :=
  C8_sides_sorted reachA2

/-- C7: an order that fails the legitimacy check is dropped silently —
no exception (`some`), no insertion, no matching, balances untouched —
yet the unconditional removal of the agent's previously resting orders
has still happened. -/
theorem C7_illegitimate_drop (env : Env) (book : OrderBook) (order : Order)
    (h : book.is_order_legitimate env order (decide (0 ≤ order.quantity)) = false)
    (hamo : ∀ a, (book.buy_orders ++ book.sell_orders).countP (ownP a) ≤ 1) :
    book.add env order = some
      ({ book with
          order_count := book.order_count + 1
          sell_orders := book.sell_orders.filter (fun e => !(ownP order.agent e))
          buy_orders := book.buy_orders.filter (fun e => !(ownP order.agent e)) }, env) ∧
    (∀ o, o ∈ book.buy_orders.filter (fun e => !(ownP order.agent e)) ++
        book.sell_orders.filter (fun e => !(ownP order.agent e)) →
      o.agent ≠ order.agent) := by
  have hamoB : book.buy_orders.countP (ownP order.agent) ≤ 1 := by
    have := hamo order.agent; rw [List.countP_append] at this; omega
  have hamoS : book.sell_orders.countP (ownP order.agent) ≤ 1 := by
    have := hamo order.agent; rw [List.countP_append] at this; omega
  constructor
  · have := add_illegit h
    rw [pyForRemove_eq_filter _ _ hamoS, pyForRemove_eq_filter _ _ hamoB] at this
    exact this
  · intro o ho
    have hf : (!(ownP order.agent o)) = true := by
      rcases List.mem_append.mp ho with hm | hm
      · exact (List.mem_filter.mp hm).2
      · exact (List.mem_filter.mp hm).2
    intro hcon
    rw [show ownP order.agent o = true by simp [ownP, hcon]] at hf
    simp at hf

/-- Agent 1 resubmits with quantity zero: illegitimate, yet the prior
resting buy is cancelled. -/
def zeroA : Order := { good := "g", price := .fin 1, quantity := 0, agent := 1 }

theorem C7_witness :
    stateA.1.add stateA.2 zeroA = some
      ({ stateA.1 with
          order_count := stateA.1.order_count + 1
          sell_orders := stateA.1.sell_orders.filter (fun e => !(ownP zeroA.agent e))
          buy_orders := stateA.1.buy_orders.filter (fun e => !(ownP zeroA.agent e)) },
        stateA.2) ∧
    (∀ o, o ∈ stateA.1.buy_orders.filter (fun e => !(ownP zeroA.agent e)) ++
        stateA.1.sell_orders.filter (fun e => !(ownP zeroA.agent e)) →
      o.agent ≠ zeroA.agent) :=
  C7_illegitimate_drop stateA.2 stateA.1 zeroA (by decide) (reachable_inv reachA).amo

/-- C9 (counterexample): the claim says that after `reset` the best-bid/
best-ask time series and the event log hold no entries from before the
reset.  In fact `reset` never touches them: a `step` before `reset`
leaves a recorded snapshot behind, and the crossing trade of scenario B
leaves its event in the log after `reset`. -/
theorem C9_counterexample :
    (OrderBook.init "g").step.reset.best_bid_history = [XInt.ninf] ∧
    (OrderBook.init "g").step.reset.best_ask_history = [XInt.pinf] ∧
    stateB.1.reset.event_history ≠ [] := by
  refine ⟨rfl, rfl, by decide⟩

/-- C9 (amended): after `reset`, the order collections are empty,
`get_full_orderbook` is empty, the caches read as the ±∞ sentinels, the
counters are zero and the trade ledger (`history`) is empty — but the
best-bid/best-ask time series and the event log retain their prior
entries. -/
theorem C9_reset (book : OrderBook) :
    book.reset.buy_orders = [] ∧
    book.reset.sell_orders = [] ∧
    book.reset.get_full_orderbook = [] ∧
    book.reset.highest_bid_order = sentinelBid book.product_name ∧
    book.reset.lowest_offer_order = sentinelOffer book.product_name ∧
    book.reset.highest_bid_order.price = XInt.ninf ∧
    book.reset.lowest_offer_order.price = XInt.pinf ∧
    book.reset.order_count = 0 ∧
    book.reset.num_transactions = 0 ∧
    book.reset.history = [] ∧
    book.reset.best_bid_history = book.best_bid_history ∧
    book.reset.best_ask_history = book.best_ask_history ∧
    book.reset.event_history = book.event_history :=
  ⟨rfl, rfl, rfl, rfl, rfl, rfl, rfl, rfl, rfl, rfl, rfl, rfl, rfl⟩

/-- C6 (counterexample): the claim says an empty side's cached reference
is the ∓∞ sentinel.  After the scenario-B cross empties the buy side,
the cached best bid still points at the consumed order priced 10. -/
theorem C6_counterexample :
    stateB.1.buy_orders = [] ∧
    stateB.1.highest_bid_order.price = XInt.fin 10 ∧
    stateB.1.highest_bid_order.price ≠ XInt.ninf := by
  refine ⟨by decide, by decide, by decide⟩

/-- C6 (amended): after any admission that passed the legitimacy check
(and did not raise), both cached references equal the heads of their
re-sorted sides whenever those sides are non-empty; a fresh or reset
book carries the ±∞ sentinel placeholders; and `step()` appends exactly
the two cached prices to the time series.  (When a side is empty — or
after an illegitimate admission — the cache retains its previous,
possibly stale, value.) -/
theorem C6_caches :
    (∀ (env : Env) (book : OrderBook) (order : Order) (book' : OrderBook)
        (env' : Env),
      book.add env order = some (book', env') →
      book.is_order_legitimate env order (decide (0 ≤ order.quantity)) = true →
      ((∀ o, book'.buy_orders.head? = some o → book'.highest_bid_order = o) ∧
        (∀ o, book'.sell_orders.head? = some o → book'.lowest_offer_order = o))) ∧
    (∀ name, (OrderBook.init name).highest_bid_order.price = XInt.ninf ∧
      (OrderBook.init name).lowest_offer_order.price = XInt.pinf) ∧
    (∀ book : OrderBook, book.reset.highest_bid_order.price = XInt.ninf ∧
      book.reset.lowest_offer_order.price = XInt.pinf) ∧
    (∀ book : OrderBook,
      book.step.best_bid_history =
        book.best_bid_history ++ [book.highest_bid_order.price] ∧
      book.step.best_ask_history =
        book.best_ask_history ++ [book.lowest_offer_order.price]) :=
  ⟨fun _ _ _ _ _ h hleg => add_legit_cacheok h hleg,
    fun _ => ⟨rfl, rfl⟩, fun _ => ⟨rfl, rfl⟩, fun _ => ⟨rfl, rfl⟩⟩

theorem C6_caches_witness : stateA.1.highest_bid_order = restA :=
  (C6_caches.1 envA (OrderBook.init "g") buyA stateA.1 stateA.2 rfl
    (by decide)).1 restA rfl

/-- C3: when a legitimate incoming order crosses and its magnitude
exceeds the matched best resting order's magnitude, the single best
opposite order is consumed and the incoming order is then discarded:
exactly one trade happens (counter and ledger grow by one entry), the
remaining sides are sub-lists of the prior book (nothing re-matched,
nothing inserted), so at most one resting counterparty is touched.  The
conclusion pins down the whole resulting state. -/
theorem C3_excess_discarded :
    (∀ (book : OrderBook) (env : Env) (order shd : Order) (stl : List Order),
      book.sell_orders = shd :: stl →
      book.lowest_offer_order = shd →
      book.sell_orders.Pairwise slexSell →
      book.buy_orders.Pairwise slexBuy →
      book.sell_orders.countP (ownP order.agent) ≤ 1 →
      book.buy_orders.countP (ownP order.agent) ≤ 1 →
      0 ≤ order.quantity →
      book.is_order_legitimate env order true = true →
      XInt.le shd.price order.price = true →
      shd.agent ≠ order.agent →
      |shd.quantity| < |order.quantity| →
      book.add env order = some
        ({ book with
            order_count := book.order_count + 1
            num_transactions := book.num_transactions + 1
            buy_orders := book.buy_orders.filter (fun e => !(ownP order.agent e))
            sell_orders := stl.filter (fun e => !(ownP order.agent e))
            highest_bid_order :=
              (book.buy_orders.filter (fun e => !(ownP order.agent e))).headD
                book.highest_bid_order
            lowest_offer_order :=
              (stl.filter (fun e => !(ownP order.agent e))).headD
                book.lowest_offer_order
            history := book.history ++
              [{ transaction_id := book.num_transactions
                 price := shd.price
                 quantity := min |order.quantity| |shd.quantity|
                 buyer := order.agent
                 seller := shd.agent }]
            event_history := book.event_history ++
              [{ seller_agent := shd.agent
                 buyer_agent := order.agent
                 good := book.product_name
                 quantity := min |order.quantity| |shd.quantity|
                 price := shd.price
                 step := 0 }] },
          trade env order.agent ("capital", shd.price)
            (book.product_name, XInt.fin (min |order.quantity| |shd.quantity|))
            shd.agent)) ∧
    (∀ (book : OrderBook) (env : Env) (order bhd : Order) (btl : List Order),
      book.buy_orders = bhd :: btl →
      book.highest_bid_order = bhd →
      book.sell_orders.Pairwise slexSell →
      book.buy_orders.Pairwise slexBuy →
      book.sell_orders.countP (ownP order.agent) ≤ 1 →
      book.buy_orders.countP (ownP order.agent) ≤ 1 →
      order.quantity < 0 →
      book.is_order_legitimate env order false = true →
      XInt.le order.price bhd.price = true →
      bhd.agent ≠ order.agent →
      |bhd.quantity| < |order.quantity| →
      book.add env order = some
        ({ book with
            order_count := book.order_count + 1
            num_transactions := book.num_transactions + 1
            buy_orders := btl.filter (fun e => !(ownP order.agent e))
            sell_orders := book.sell_orders.filter (fun e => !(ownP order.agent e))
            highest_bid_order :=
              (btl.filter (fun e => !(ownP order.agent e))).headD
                book.highest_bid_order
            lowest_offer_order :=
              (book.sell_orders.filter (fun e => !(ownP order.agent e))).headD
                book.lowest_offer_order
            history := book.history ++
              [{ transaction_id := book.num_transactions
                 price := bhd.price
                 quantity := min |order.quantity| |bhd.quantity|
                 buyer := bhd.agent
                 seller := order.agent }]
            event_history := book.event_history ++
              [{ seller_agent := order.agent
                 buyer_agent := bhd.agent
                 good := book.product_name
                 quantity := min |order.quantity| |bhd.quantity|
                 price := bhd.price
                 step := 0 }] },
          trade env order.agent
            (book.product_name, XInt.fin (min |order.quantity| |bhd.quantity|))
            ("capital", bhd.price) bhd.agent)) :=
  ⟨fun _ _ _ _ _ h1 h2 hsS hsB haS haB hq hleg hcr hag _ =>
    add_cross_buy h1 h2 hsS hsB haS haB hq hleg hcr hag,
  fun _ _ _ _ _ h1 h2 hsS hsB haS haB hq hleg hcr hag _ =>
    add_cross_sell h1 h2 hsS hsB haS haB hq hleg hcr hag⟩

theorem C3_witness :
    stateE.1.add stateE.2 buyBig = some
      ({ stateE.1 with
          order_count := stateE.1.order_count + 1
          num_transactions := stateE.1.num_transactions + 1
          buy_orders := stateE.1.buy_orders.filter (fun e => !(ownP buyBig.agent e))
          sell_orders := List.filter (fun e => !(ownP buyBig.agent e)) []
          highest_bid_order :=
            (stateE.1.buy_orders.filter (fun e => !(ownP buyBig.agent e))).headD
              stateE.1.highest_bid_order
          lowest_offer_order :=
            (List.filter (fun e => !(ownP buyBig.agent e)) []).headD
              stateE.1.lowest_offer_order
          history := stateE.1.history ++
            [{ transaction_id := stateE.1.num_transactions
               price := restE.price
               quantity := min |buyBig.quantity| |restE.quantity|
               buyer := buyBig.agent
               seller := restE.agent }]
          event_history := stateE.1.event_history ++
            [{ seller_agent := restE.agent
               buyer_agent := buyBig.agent
               good := stateE.1.product_name
               quantity := min |buyBig.quantity| |restE.quantity|
               price := restE.price
               step := 0 }] },
        trade stateE.2 buyBig.agent ("capital", restE.price)
          (stateE.1.product_name, XInt.fin (min |buyBig.quantity| |restE.quantity|))
          restE.agent) :=
  C3_excess_discarded.1 stateE.1 stateE.2 buyBig restE [] (by decide) (by decide)
    (by decide) (by decide) (by decide) (by decide) (by decide) (by decide)
    (by decide) (by decide) (by decide)

/-- C10 (implicit): every execution removes the matched resting (maker)
order from its side entirely — also when the execution quantity
`min(|incoming|, |resting|)` is strictly below the resting magnitude —
and leaves the incoming order's own side untouched; the maker's
unfilled remainder is gone from the book. -/
theorem C10_maker_fully_removed :
    (∀ (book : OrderBook) (env : Env) (inc res : Order) (bk' : OrderBook)
        (env' : Env),
      0 ≤ inc.quantity →
      book.sell_orders.count res = 1 →
      book.execute env inc res = some (bk', env') →
      bk'.sell_orders = book.sell_orders.erase res ∧
      res ∉ bk'.sell_orders ∧
      bk'.buy_orders = book.buy_orders) ∧
    (∀ (book : OrderBook) (env : Env) (inc res : Order) (bk' : OrderBook)
        (env' : Env),
      inc.quantity < 0 →
      book.buy_orders.count res = 1 →
      book.execute env inc res = some (bk', env') →
      bk'.buy_orders = book.buy_orders.erase res ∧
      res ∉ bk'.buy_orders ∧
      bk'.sell_orders = book.sell_orders) := by
  constructor
  · intro book env inc res bk' env' hq hcnt h
    obtain ⟨_, _, _, _, _, hsides⟩ := execute_char h
    rcases hsides with ⟨_, hbb, _, hbs⟩ | ⟨hneg, _, _, _⟩
    · refine ⟨hbs, ?_, hbb⟩
      rw [hbs]
      apply List.count_eq_zero.mp
      rw [List.count_erase_self, hcnt]
    · omega
  · intro book env inc res bk' env' hq hcnt h
    obtain ⟨_, _, _, _, _, hsides⟩ := execute_char h
    rcases hsides with ⟨hpos, _, _, _⟩ | ⟨_, hss, _, hbe⟩
    · omega
    · refine ⟨hbe, ?_, hss⟩
      rw [hbe]
      apply List.count_eq_zero.mp
      rw [List.count_erase_self, hcnt]

theorem C10_witness :
    exE.1.sell_orders = stateE.1.sell_orders.erase restE ∧
    restE ∉ exE.1.sell_orders ∧
    exE.1.buy_orders = stateE.1.buy_orders :=
  C10_maker_fully_removed.1 stateE.1 stateE.2 buyBig restE exE.1 exE.2
    (by decide) (by decide) rfl

/-- C5: one successful match issues exactly one bilateral transfer — the
buyer pays a capital amount equal to the resting order's unit price (not
price times quantity) and receives the traded good in the matched
quantity `min(|incoming|, |resting|)`, the seller's legs mirroring it,
with every other balance untouched — appends exactly one trade record
and one trade event, and increments the trade counter by exactly one. -/
theorem C5_settlement (book : OrderBook) (env : Env) (inc res : Order)
    (bk' : OrderBook) (env' : Env)
    (h : book.execute env inc res = some (bk', env'))
    (hpn : book.product_name ≠ "capital") :
    ((0 ≤ inc.quantity → inc.agent ≠ res.agent →
      (bk'.num_transactions = book.num_transactions + 1 ∧
       bk'.history = book.history ++
         [{ transaction_id := book.num_transactions
            price := res.price
            quantity := min |inc.quantity| |res.quantity|
            buyer := inc.agent
            seller := res.agent }] ∧
       bk'.event_history = book.event_history ++
         [{ seller_agent := res.agent
            buyer_agent := inc.agent
            good := book.product_name
            quantity := min |inc.quantity| |res.quantity|
            price := res.price
            step := 0 }] ∧
       env' inc.agent "capital" =
         XInt.add (env inc.agent "capital") (XInt.neg res.price) ∧
       env' inc.agent book.product_name =
         XInt.add (env inc.agent book.product_name)
           (XInt.fin (min |inc.quantity| |res.quantity|)) ∧
       env' res.agent "capital" = XInt.add (env res.agent "capital") res.price ∧
       env' res.agent book.product_name =
         XInt.add (env res.agent book.product_name)
           (XInt.neg (XInt.fin (min |inc.quantity| |res.quantity|))) ∧
       (∀ a g, a ≠ inc.agent → a ≠ res.agent → env' a g = env a g) ∧
       (∀ a g, g ≠ "capital" → g ≠ book.product_name → env' a g = env a g))) ∧
     (inc.quantity < 0 → inc.agent ≠ res.agent →
      (bk'.num_transactions = book.num_transactions + 1 ∧
       bk'.history = book.history ++
         [{ transaction_id := book.num_transactions
            price := res.price
            quantity := min |inc.quantity| |res.quantity|
            buyer := res.agent
            seller := inc.agent }] ∧
       bk'.event_history = book.event_history ++
         [{ seller_agent := inc.agent
            buyer_agent := res.agent
            good := book.product_name
            quantity := min |inc.quantity| |res.quantity|
            price := res.price
            step := 0 }] ∧
       env' res.agent "capital" =
         XInt.add (env res.agent "capital") (XInt.neg res.price) ∧
       env' res.agent book.product_name =
         XInt.add (env res.agent book.product_name)
           (XInt.fin (min |inc.quantity| |res.quantity|)) ∧
       env' inc.agent "capital" = XInt.add (env inc.agent "capital") res.price ∧
       env' inc.agent book.product_name =
         XInt.add (env inc.agent book.product_name)
           (XInt.neg (XInt.fin (min |inc.quantity| |res.quantity|))) ∧
       (∀ a g, a ≠ inc.agent → a ≠ res.agent → env' a g = env a g) ∧
       (∀ a g, g ≠ "capital" → g ≠ book.product_name → env' a g = env a g)))) := by
  constructor
  · intro hq hag
    rw [OrderBook.execute, if_pos (by simp [hq])] at h
    rcases hrem : pyRemove res book.sell_orders with _ | l'
    · rw [hrem] at h; cases h
    · rw [hrem] at h
      rw [Option.some.injEq, Prod.mk.injEq] at h
      obtain ⟨hbk, henv⟩ := h
      subst hbk
      subst henv
      obtain ⟨e1, e2, e3, e4, e5, e6⟩ :=
        trade_eval env inc.agent "capital" book.product_name res.price
          (XInt.fin (min |inc.quantity| |res.quantity|)) res.agent
          (Ne.symm hpn) hag
      exact ⟨rfl, rfl, rfl, e1, e2, e3, e4, e5, fun a g h1 h2 => e6 a g h1 h2⟩
  · intro hq hag
    rw [OrderBook.execute, if_neg (by simp; omega)] at h
    rcases hrem : pyRemove res book.buy_orders with _ | l'
    · rw [hrem] at h; cases h
    · rw [hrem] at h
      rw [Option.some.injEq, Prod.mk.injEq] at h
      obtain ⟨hbk, henv⟩ := h
      subst hbk
      subst henv
      obtain ⟨e1, e2, e3, e4, e5, e6⟩ :=
        trade_eval env inc.agent book.product_name "capital"
          (XInt.fin (min |inc.quantity| |res.quantity|)) res.price res.agent
          hpn hag
      exact ⟨rfl, rfl, rfl, e4, e3, e2, e1, fun a g h1 h2 => e5 a g h1 h2,
        fun a g h1 h2 => e6 a g h2 h1⟩

theorem C5_witness :
    exB.1.num_transactions = stateA.1.num_transactions + 1 ∧
    exB.2 1 "capital" = XInt.add (stateA.2 1 "capital") (XInt.neg (XInt.fin 10)) ∧
    exB.2 1 "g" = XInt.add (stateA.2 1 "g") (XInt.fin 3) ∧
    exB.2 2 "capital" = XInt.add (stateA.2 2 "capital") (XInt.fin 10) ∧
    exB.2 2 "g" = XInt.add (stateA.2 2 "g") (XInt.neg (XInt.fin 3)) := by
  obtain ⟨h1, _, _, h4, h5, h6, h7, _, _⟩ :=
    (C5_settlement stateA.1 stateA.2 sellB restA exB.1 exB.2 rfl
      (by decide)).2 (by decide) (by decide)
  exact ⟨h1, h4, h5, h6, h7⟩

/-- C1 (failing input): agent 2's sell at 7 rests, agent 1's sell at 5
rests and is the cached best offer.  Agent 1 then submits a buy at 6.
The admission first cancels agent 1's own sell at 5, after which the
current best (indeed only) offer is priced 7, so by the claim the buy at
6 must not cross and should rest.  The code instead compares against the
stale cached order at 5, calls `execute` against that already-removed
order, and `list.remove` raises `ValueError` (the admission returns
`none`). -/
theorem C1_code_bug :
    stateC1.1.sell_orders.map Order.price = [XInt.fin 5, XInt.fin 7] ∧
    stateC1.1.lowest_offer_order.price = XInt.fin 5 ∧
    (pyForRemove (ownP buyA6.agent) stateC1.1.sell_orders).map Order.price
      = [XInt.fin 7] ∧
    XInt.le (XInt.fin 7) buyA6.price = false ∧
    stateC1.1.add stateC1.2 buyA6 = none :=
  ⟨by decide, by decide, by decide, by decide, rfl⟩

end PyCxs
